import Mathlib

/-!
Verification of the UnrealImGui module facade (Source/ImGui/Private/ImGuiModule.cpp)
against its natural-language specification.

The repository source provides the facade functions (delegate add/remove, texture
register/find/release, the boolean input-mode and demo flags, module startup and
shutdown, and FImGuiTextureHandle::HasValidEntry).  The registries the facade
delegates to (FTextureManager, FImGuiContextManager, the multicast delegate lists)
are not part of the provided source; those are modelled from the specification's
Slot Registry / Delegate Dispatch description and are marked as such below.

Conventions of the embedding:
 - FName is modelled as String; a texture payload and a draw callback are opaque
   and modelled as Nat.
 - TextureIndex is Int with INDEX_NONE = -1, matching the engine's int32 index
   with sentinel.
 - UE multicast delegate handles (FDelegateHandle) carry a monotonically
   increasing id; this is the nextDelegateKey counter, and a delegate list is a
   list of (key, callback) pairs.  Remove-by-handle removes the entry whose key
   matches (keys are never reused, so at most one entry matches).
-/

/-- UE sentinel for an invalid index (INDEX_NONE = -1). -/
def INDEX_NONE : Int := -1

/-- Opaque texture handle returned by the facade: the name it was issued with and
the encoded texture index (ImTextureID round-trips to TextureIndex through
ImGuiInterops, so the id is modelled as the index itself). -/
structure FImGuiTextureHandle where
  Name : String
  TextureId : Int
deriving DecidableEq, Repr

/-- Modelled from the spec: the default-constructed FImGuiTextureHandle (the
header is not in the provided source); per the spec it is the invalid sentinel
handle, carrying no name and INDEX_NONE. -/
def defaultTextureHandle : FImGuiTextureHandle := ⟨"", INDEX_NONE⟩

/-- Modelled from the spec: FImGuiTextureHandle::IsValid (header not in the
provided source) is true exactly when the encoded id is not the invalid
sentinel. -/
def FImGuiTextureHandle.IsValid (h : FImGuiTextureHandle) : Bool :=
  h.TextureId != INDEX_NONE

/-- Generic slot lookup by a possibly-negative engine index: none for a negative
or out-of-range index, otherwise the stored optional occupant. -/
def slotAt {α : Type} (l : List (Option α)) (i : Int) : Option α :=
  if i < 0 then none else (l[i.toNat]?).getD none

/-- First free (unoccupied) index of a slot sequence, if any. -/
def firstFree {α : Type} : List (Option α) → Option Nat
  | [] => none
  | none :: _ => some 0
  | some _ :: rest => (firstFree rest).map (· + 1)

/-- Modelled from the spec: Slot Registry allocation — reuse a free index when
one exists, otherwise append; store the value; return the index. -/
def allocSlot {α : Type} (l : List (Option α)) (v : α) : Nat × List (Option α) :=
  match firstFree l with
  | some i => (i, l.set i (some v))
  | none => (l.length, l ++ [some v])

/-- First live slot index whose stored name is the given one, if any. -/
def firstNamed : List (Option (String × Nat)) → String → Option Nat
  | [], _ => none
  | none :: rest, n => (firstNamed rest n).map (· + 1)
  | some (m, _) :: rest, n =>
      if m = n then some 0 else (firstNamed rest n).map (· + 1)

/-- Modelled from the spec: the texture manager's registry — a sequence of
optional (name, payload) slots (FTextureManager is not in the provided
source). -/
structure FTextureManager where
  slots : List (Option (String × Nat))
deriving DecidableEq, Repr

/-- Modelled from the spec: stored name of a live slot, none for a free or
invalid index (FTextureManager::GetTextureName is not in the provided source;
the spec's identity-checked resolve compares the stored name of a live slot). -/
def FTextureManager.GetTextureName (tm : FTextureManager) (i : Int) : Option String :=
  (slotAt tm.slots i).map Prod.fst

/-- Modelled from the spec: lookup by name over live slots, INDEX_NONE if no
live slot stores the name (FTextureManager::FindTextureIndex is not in the
provided source). -/
def FTextureManager.FindTextureIndex (tm : FTextureManager) (n : String) : Int :=
  match firstNamed tm.slots n with
  | some i => (i : Int)
  | none => INDEX_NONE

/-- Modelled from the spec: allocate a fresh slot for a named texture payload. -/
def FTextureManager.allocTexture (tm : FTextureManager) (n : String) (payload : Nat) :
    Int × FTextureManager :=
  ((allocSlot tm.slots (n, payload)).1, ⟨(allocSlot tm.slots (n, payload)).2⟩)

/-- Modelled from the spec: FTextureManager::CreateTextureResources (not in the
provided source) — when bMakeUnique is false and a live slot already stores the
name, return that slot's index (dedup); otherwise allocate a slot through the
Slot Registry's allocate. -/
def FTextureManager.CreateTextureResources (tm : FTextureManager) (n : String)
    (payload : Nat) (bMakeUnique : Bool) : Int × FTextureManager :=
  if bMakeUnique then tm.allocTexture n payload
  else
    match firstNamed tm.slots n with
    | some i => ((i : Int), tm)
    | none => tm.allocTexture n payload

/-- Modelled from the spec: FTextureManager::ReleaseTextureResources (not in the
provided source) — clear the slot when it is live, a no-op otherwise
(unregistering an already-invalid id is a no-op per the spec). -/
def FTextureManager.ReleaseTextureResources (tm : FTextureManager) (i : Int) :
    FTextureManager :=
  match slotAt tm.slots i with
  | some _ => ⟨tm.slots.set i.toNat none⟩
  | none => tm

/-- Modelled from the spec: the Slot Registry's identity-checked resolve —
return the payload only when the slot is live and its stored name equals the
expected name, otherwise NotFound (none). -/
def FTextureManager.Resolve (tm : FTextureManager) (i : Int) (n : String) : Option Nat :=
  match slotAt tm.slots i with
  | some (m, p) => if m = n then some p else none
  | none => none

/-- Delegate category from ImGuiModule.cpp: Default per-context draw events, or
the multi-context draw event. -/
inductive EDelegateCategory
  | Default
  | MultiContext
deriving DecidableEq, Repr

/-- Opaque delegate handle returned by the facade: the underlying delegate key,
the category, and (for Default) the context index. -/
structure FImGuiDelegateHandle where
  Handle : Nat
  Category : EDelegateCategory
  Index : Int
deriving DecidableEq, Repr

/-- A context proxy owns an ordered draw-delegate list of (key, callback)
pairs. -/
structure FImGuiContextProxy where
  onDraw : List (Nat × Nat)
deriving DecidableEq, Repr

/-- Modelled from the spec: the context manager — optional context proxies
indexed by context index, plus the global multi-context draw list
(FImGuiContextManager is not in the provided source). -/
structure FImGuiContextManager where
  contexts : List (Option FImGuiContextProxy)
  multiContextDraw : List (Nat × Nat)
deriving DecidableEq, Repr

/-- Modelled from the spec: FImGuiContextManager::GetContextProxy (not in the
provided source) — index-only lookup returning the proxy of a live context, or
none. -/
def FImGuiContextManager.GetContextProxy (cm : FImGuiContextManager) (i : Int) :
    Option FImGuiContextProxy :=
  slotAt cm.contexts i

/-- The module manager owns the context manager and the texture manager; the
nextDelegateKey counter models UE's monotonically increasing FDelegateHandle
ids (never reused while the manager lives). -/
structure FImGuiModuleManager where
  contextManager : FImGuiContextManager
  textureManager : FTextureManager
  nextDelegateKey : Nat
deriving DecidableEq, Repr

/-- Full module state: the static ImGuiModuleManager pointer (none once the
module is shut down) and the two console-variable flags, stored as ints as the
CVars are. -/
structure ModuleState where
  imGuiModuleManager : Option FImGuiModuleManager
  inputEnabled : Int
  showDemo : Int
deriving DecidableEq, Repr

/-- Error taxonomy of the spec relevant to the delegate registry. -/
inductive RegistryError
  | UnknownContext
deriving DecidableEq, Repr

/-- Remove the entry with the given delegate key from a delegate list (UE
multicast Remove by handle; keys are unique so at most one entry matches). -/
def removeKey (k : Nat) (l : List (Nat × Nat)) : List (Nat × Nat) :=
  l.filter fun e => e.1 != k

/-- Modelled from the spec: the Default-category add by context index (the
facade's AddWorldImGuiDelegate resolves the current world to an index and then
appends to that context's OnDraw list; the spec's AddDefault fails with
UnknownContext when the index is not live). -/
def FImGuiModuleManager.AddDefault (m : FImGuiModuleManager) (i : Int) (cb : Nat) :
    Except RegistryError (FImGuiDelegateHandle × FImGuiModuleManager) :=
  match m.contextManager.GetContextProxy i with
  | none => .error .UnknownContext
  | some p =>
      .ok (⟨m.nextDelegateKey, .Default, i⟩,
        { m with
          contextManager := { m.contextManager with
            contexts := m.contextManager.contexts.set i.toNat
              (some ⟨p.onDraw ++ [(m.nextDelegateKey, cb)]⟩) },
          nextDelegateKey := m.nextDelegateKey + 1 })

/-- AddMultiContextImGuiDelegate's core: append to the global multi-context
draw list and hand back a MultiContext-category handle. -/
def FImGuiModuleManager.AddMultiContext (m : FImGuiModuleManager) (cb : Nat) :
    FImGuiDelegateHandle × FImGuiModuleManager :=
  (⟨m.nextDelegateKey, .MultiContext, 0⟩,
   { m with
     contextManager := { m.contextManager with
       multiContextDraw := m.contextManager.multiContextDraw ++ [(m.nextDelegateKey, cb)] },
     nextDelegateKey := m.nextDelegateKey + 1 })

/-- The manager-level body of FImGuiModule::RemoveImGuiDelegate: MultiContext
handles remove from the global list; Default handles resolve the context index
and remove from that context's OnDraw list, a no-op when the context is gone. -/
def FImGuiModuleManager.removeDelegate (m : FImGuiModuleManager)
    (h : FImGuiDelegateHandle) : FImGuiModuleManager :=
  match h.Category with
  | .MultiContext =>
      { m with contextManager := { m.contextManager with
          multiContextDraw := removeKey h.Handle m.contextManager.multiContextDraw } }
  | .Default =>
      match m.contextManager.GetContextProxy h.Index with
      | none => m
      | some p =>
          { m with contextManager := { m.contextManager with
              contexts := m.contextManager.contexts.set h.Index.toNat
                (some ⟨removeKey h.Handle p.onDraw⟩) } }

/-- FImGuiModule::RemoveImGuiDelegate: guarded by the static module-manager
pointer — when the manager is gone the call does nothing at all. -/
def RemoveImGuiDelegate (st : ModuleState) (h : FImGuiDelegateHandle) : ModuleState :=
  match st.imGuiModuleManager with
  | none => st
  | some m => { st with imGuiModuleManager := some (m.removeDelegate h) }

/-- FImGuiModule::FindTextureHandle: look the name up in the texture manager;
a found index yields a handle carrying the name and the index, otherwise the
default-constructed (invalid) handle. -/
def FImGuiModuleManager.FindTextureHandle (m : FImGuiModuleManager) (n : String) :
    FImGuiTextureHandle :=
  if m.textureManager.FindTextureIndex n != INDEX_NONE then
    ⟨n, m.textureManager.FindTextureIndex n⟩
  else defaultTextureHandle

/-- FImGuiModule::RegisterTexture: create texture resources and wrap the
returned index with the name in a handle. -/
def FImGuiModuleManager.RegisterTexture (m : FImGuiModuleManager) (n : String)
    (payload : Nat) (bMakeUnique : Bool) : FImGuiTextureHandle × FImGuiModuleManager :=
  (⟨n, (m.textureManager.CreateTextureResources n payload bMakeUnique).1⟩,
   { m with textureManager := (m.textureManager.CreateTextureResources n payload bMakeUnique).2 })

/-- FImGuiModule::ReleaseTexture: only a valid handle (id not INDEX_NONE)
releases the slot it encodes. -/
def FImGuiModuleManager.ReleaseTexture (m : FImGuiModuleManager)
    (h : FImGuiTextureHandle) : FImGuiModuleManager :=
  if h.IsValid then
    { m with textureManager := m.textureManager.ReleaseTextureResources h.TextureId }
  else m

/-- FImGuiTextureHandle::HasValidEntry: the index is not INDEX_NONE, the module
manager exists, and the texture manager's stored name for the index equals the
handle's name. -/
def ModuleState.HasValidEntry (st : ModuleState) (h : FImGuiTextureHandle) : Bool :=
  (h.TextureId != INDEX_NONE) &&
    (match st.imGuiModuleManager with
     | none => false
     | some m => m.textureManager.GetTextureName h.TextureId == some h.Name)

/-- FImGuiModule::IsInputMode: the InputEnabled console variable is positive. -/
def ModuleState.IsInputMode (st : ModuleState) : Bool :=
  decide (0 < st.inputEnabled)

/-- FImGuiModule::SetInputMode: set the InputEnabled console variable to 1 or 0. -/
def SetInputMode (st : ModuleState) (bEnabled : Bool) : ModuleState :=
  { st with inputEnabled := if bEnabled then 1 else 0 }

/-- FImGuiModule::ToggleInputMode: set to the negation of the current mode. -/
def ToggleInputMode (st : ModuleState) : ModuleState :=
  SetInputMode st (!st.IsInputMode)

/-- FImGuiModule::IsShowingDemo: the ShowDemo console variable is positive. -/
def ModuleState.IsShowingDemo (st : ModuleState) : Bool :=
  decide (0 < st.showDemo)

/-- FImGuiModule::SetShowDemo: set the ShowDemo console variable to 1 or 0. -/
def SetShowDemo (st : ModuleState) (bShow : Bool) : ModuleState :=
  { st with showDemo := if bShow then 1 else 0 }

/-- FImGuiModule::ToggleShowDemo: set to the negation of the current flag. -/
def ToggleShowDemo (st : ModuleState) : ModuleState :=
  SetShowDemo st (!st.IsShowingDemo)

/-- FImGuiModule::ShutdownModule: the module manager is deleted and the static
pointer cleared. -/
def ShutdownModule (st : ModuleState) : ModuleState :=
  { st with imGuiModuleManager := none }

/-- C8: the input-capture and demo-overlay toggles are plain boolean flags —
setting either flag makes the getter return exactly that boolean, the toggles
invert the getter's value, and toggling twice restores it. -/
theorem flags_are_plain_booleans (st : ModuleState) (b : Bool) :
    (SetInputMode st b).IsInputMode = b ∧
    (SetShowDemo st b).IsShowingDemo = b ∧
    (ToggleInputMode st).IsInputMode = !st.IsInputMode ∧
    (ToggleShowDemo st).IsShowingDemo = !st.IsShowingDemo ∧
    (ToggleInputMode (ToggleInputMode st)).IsInputMode = st.IsInputMode ∧
    (ToggleShowDemo (ToggleShowDemo st)).IsShowingDemo = st.IsShowingDemo := by
  have hset : ∀ (s : ModuleState) (c : Bool), (SetInputMode s c).IsInputMode = c := by
    intro s c
    cases c <;> simp [SetInputMode, ModuleState.IsInputMode]
  have hdemo : ∀ (s : ModuleState) (c : Bool), (SetShowDemo s c).IsShowingDemo = c := by
    intro s c
    cases c <;> simp [SetShowDemo, ModuleState.IsShowingDemo]
  refine ⟨hset st b, hdemo st b, ?_, ?_, ?_, ?_⟩
  · exact hset st (!st.IsInputMode)
  · exact hdemo st (!st.IsShowingDemo)
  · simp [ToggleInputMode, hset]
  · simp [ToggleShowDemo, hdemo]

/-- C9: after the module has been shut down (the manager pointer cleared),
RemoveImGuiDelegate with any handle leaves the state unchanged — the null
check at the top of the function short-circuits everything. -/
theorem remove_after_shutdown_is_noop (st : ModuleState) (h : FImGuiDelegateHandle) :
    RemoveImGuiDelegate (ShutdownModule st) h = ShutdownModule st :=
  rfl

/-- C10: a handle whose encoded index is the INDEX_NONE sentinel — in
particular the default-constructed handle — never passes HasValidEntry, for any
module state, and ReleaseTexture on it releases nothing; the default handle is
such a handle. -/
theorem sentinel_handle_invalid (st : ModuleState) (m : FImGuiModuleManager)
    (h : FImGuiTextureHandle) (hid : h.TextureId = INDEX_NONE) :
    st.HasValidEntry h = false ∧ m.ReleaseTexture h = m ∧
    defaultTextureHandle.TextureId = INDEX_NONE := by
  refine ⟨?_, ?_, rfl⟩
  · simp [ModuleState.HasValidEntry, hid]
  · simp [FImGuiModuleManager.ReleaseTexture, FImGuiTextureHandle.IsValid, hid]

/-- Witness for C10 at the default-constructed handle and a concrete state. -/
theorem sentinel_handle_invalid_witness :
    (ModuleState.mk (some ⟨⟨[], []⟩, ⟨[some ("t", 5)]⟩, 0⟩) 0 0).HasValidEntry
        defaultTextureHandle = false ∧
      (FImGuiModuleManager.mk ⟨[], []⟩ ⟨[some ("t", 5)]⟩ 0).ReleaseTexture
        defaultTextureHandle = FImGuiModuleManager.mk ⟨[], []⟩ ⟨[some ("t", 5)]⟩ 0 ∧
      defaultTextureHandle.TextureId = INDEX_NONE :=
  sentinel_handle_invalid (ModuleState.mk (some ⟨⟨[], []⟩, ⟨[some ("t", 5)]⟩, 0⟩) 0 0)
    (FImGuiModuleManager.mk ⟨[], []⟩ ⟨[some ("t", 5)]⟩ 0) defaultTextureHandle rfl

/-- C3: adding a Default-category delegate for a context index that is not live
fails with UnknownContext; the error branch returns no new manager state, so
no context is created as a side effect. -/
theorem addDefault_dead_context_fails (m : FImGuiModuleManager) (i : Int) (cb : Nat)
    (hdead : m.contextManager.GetContextProxy i = none) :
    m.AddDefault i cb = .error .UnknownContext := by
  simp [FImGuiModuleManager.AddDefault, hdead]

/-- Witness for C3 on an empty context registry at index 0. -/
theorem addDefault_dead_context_fails_witness :
    (FImGuiModuleManager.mk ⟨[], []⟩ ⟨[]⟩ 0).AddDefault 0 7 =
      .error .UnknownContext :=
  addDefault_dead_context_fails (FImGuiModuleManager.mk ⟨[], []⟩ ⟨[]⟩ 0) 0 7 rfl

/-- C1: HasValidEntry is true exactly when the module manager is live, the slot
the handle's id encodes currently holds a live payload, and that payload's
stored name equals the name the handle was issued with; any other case (free
slot, reused slot under another name, invalid index, manager gone) is false. -/
theorem hasValidEntry_iff (st : ModuleState) (h : FImGuiTextureHandle) :
    st.HasValidEntry h = true ↔
      ∃ m p, st.imGuiModuleManager = some m ∧
        slotAt m.textureManager.slots h.TextureId = some (h.Name, p) := by
  unfold ModuleState.HasValidEntry
  cases hmm : st.imGuiModuleManager with
  | none => simp [hmm]
  | some m =>
      simp only [hmm, Bool.and_eq_true, bne_iff_ne, ne_eq, beq_iff_eq,
        Option.some.injEq]
      constructor
      · rintro ⟨hne, hname⟩
        unfold FTextureManager.GetTextureName at hname
        cases hs : slotAt m.textureManager.slots h.TextureId with
        | none => rw [hs] at hname; simp at hname
        | some pr =>
            rw [hs] at hname
            simp only [Option.map_some'] at hname
            injection hname with hname
            refine ⟨m, pr.2, rfl, ?_⟩
            rw [hs, ← hname]
      · rintro ⟨m2, p, hm2, hslot⟩
        obtain rfl : m = m2 := by simpa using hm2
        refine ⟨?_, ?_⟩
        · intro hid
          rw [hid] at hslot
          simp [slotAt, INDEX_NONE] at hslot
        · unfold FTextureManager.GetTextureName
          rw [hslot]
          rfl


/-- A successful slot lookup pins the index nonnegative and in range. -/
theorem slotAt_eq_some {α : Type} {l : List (Option α)} {i : Int} {a : α}
    (h : slotAt l i = some a) : 0 ≤ i ∧ l[i.toNat]? = some (some a) := by
  unfold slotAt at h
  by_cases hneg : i < 0
  · rw [if_pos hneg] at h
    exact absurd h (by simp)
  · rw [if_neg hneg] at h
    refine ⟨by omega, ?_⟩
    cases hg : l[i.toNat]? with
    | none => rw [hg] at h; simp at h
    | some o =>
        rw [hg] at h
        simp only [Option.getD_some] at h
        rw [h]

/-- Slot lookup commutes with an update: the updated value at the written index
(when in range), the old lookup everywhere else. -/
theorem slotAt_set {α : Type} (l : List (Option α)) (j : Nat) (v : Option α) (i : Int) :
    slotAt (l.set j v) i =
      if 0 ≤ i ∧ i.toNat = j ∧ j < l.length then v else slotAt l i := by
  unfold slotAt
  by_cases hneg : i < 0
  · simp only [if_pos hneg]
    rw [if_neg (by omega : ¬(0 ≤ i ∧ i.toNat = j ∧ j < l.length))]
  · simp only [if_neg hneg]
    by_cases hj : i.toNat = j
    · by_cases hlt : j < l.length
      · rw [if_pos ⟨by omega, hj, hlt⟩]
        subst hj
        rw [List.getElem?_set_eq hlt]
        rfl
      · rw [if_neg (by omega : ¬(0 ≤ i ∧ i.toNat = j ∧ j < l.length))]
        subst hj
        rw [List.set_eq_of_length_le (by omega)]
    · rw [if_neg (by omega : ¬(0 ≤ i ∧ i.toNat = j ∧ j < l.length)),
        List.getElem?_set_ne (by omega : j ≠ i.toNat)]

/-- A free index reported by firstFree holds an unoccupied slot. -/
theorem firstFree_spec {α : Type} : ∀ (l : List (Option α)) (i : Nat),
    firstFree l = some i → l[i]? = some none
  | [], i, h => by simp [firstFree] at h
  | none :: rest, i, h => by
      simp only [firstFree] at h
      injection h with h
      subst h
      simp
  | some a :: rest, i, h => by
      simp only [firstFree] at h
      cases hf : firstFree rest with
      | none => rw [hf] at h; simp at h
      | some j =>
          rw [hf] at h
          simp only [Option.map_some'] at h
          injection h with h
          subst h
          simpa using firstFree_spec rest j hf

/-- Allocation writes the value at the returned index and leaves every other
index untouched. -/
theorem allocSlot_get {α : Type} (l : List (Option α)) (v : α) (j : Nat) :
    ((allocSlot l v).2)[j]? =
      if j = (allocSlot l v).1 then some (some v) else l[j]? := by
  unfold allocSlot
  cases hf : firstFree l with
  | some i =>
      have hlt : i < l.length := (List.getElem?_eq_some.mp (firstFree_spec l i hf)).1
      by_cases hj : j = i
      · subst hj
        rw [if_pos rfl, List.getElem?_set_eq hlt]
      · rw [if_neg hj, List.getElem?_set_ne (fun hh => hj hh.symm)]
  | none =>
      by_cases hj : j = l.length
      · subst hj
        rw [if_pos rfl, List.getElem?_concat_length]
      · rw [if_neg hj]
        rcases Nat.lt_or_ge j l.length with hlt | hge
        · rw [List.getElem?_append_left hlt]
        · have h1 : l[j]? = none := List.getElem?_eq_none_iff.mpr hge
          have h2 : (l ++ [some v])[j]? = none :=
            List.getElem?_eq_none_iff.mpr (by simp; omega)
          rw [h1, h2]

/-- removeKey leaves a list alone when no entry carries the key. -/
theorem removeKey_of_not_mem (k : Nat) (l : List (Nat × Nat))
    (h : ∀ e ∈ l, e.1 ≠ k) : removeKey k l = l :=
  List.filter_eq_self.mpr (fun e he => by simpa using h e he)

/-- removeKey is idempotent. -/
theorem removeKey_idem (k : Nat) (l : List (Nat × Nat)) :
    removeKey k (removeKey k l) = removeKey k l := by
  unfold removeKey
  rw [List.filter_filter]
  simp

/-- removeKey distributes over append. -/
theorem removeKey_append (k : Nat) (l1 l2 : List (Nat × Nat)) :
    removeKey k (l1 ++ l2) = removeKey k l1 ++ removeKey k l2 :=
  List.filter_append _ _

/-- removeKey deletes a singleton carrying exactly the key. -/
theorem removeKey_single_self (k cb : Nat) : removeKey k [(k, cb)] = [] := by
  simp [removeKey]

/-- Entries surviving removeKey were already present. -/
theorem mem_removeKey {k : Nat} {l : List (Nat × Nat)} {e : Nat × Nat}
    (h : e ∈ removeKey k l) : e ∈ l := (List.mem_filter.mp h).1

/-- The stored name resolves exactly when the slot is live under that name. -/
theorem getTextureName_eq_some {tm : FTextureManager} {i : Int} {n : String} :
    tm.GetTextureName i = some n ↔ ∃ p, slotAt tm.slots i = some (n, p) := by
  unfold FTextureManager.GetTextureName
  cases hs : slotAt tm.slots i with
  | none => simp
  | some pr =>
      simp only [Option.map_some', Option.some.injEq]
      constructor
      · intro h
        exact ⟨pr.2, by rw [← h]⟩
      · rintro ⟨p, hp⟩
        rw [hp]

/-- A unique (non-dedup) texture registration allocates a slot holding the name
and payload, disturbing no other slot. -/
theorem allocTexture_spec (tm : FTextureManager) (n : String) (p : Nat) :
    0 ≤ (tm.allocTexture n p).1 ∧
    slotAt (tm.allocTexture n p).2.slots (tm.allocTexture n p).1 = some (n, p) ∧
    ∀ k : Int, k ≠ (tm.allocTexture n p).1 →
      slotAt (tm.allocTexture n p).2.slots k = slotAt tm.slots k := by
  unfold FTextureManager.allocTexture
  refine ⟨by omega, ?_, ?_⟩
  · unfold slotAt
    rw [if_neg (by omega : ¬((allocSlot tm.slots (n, p)).1 : Int) < 0)]
    have ht : ((allocSlot tm.slots (n, p)).1 : Int).toNat
        = (allocSlot tm.slots (n, p)).1 := by omega
    rw [ht, allocSlot_get, if_pos rfl]
    rfl
  · intro k hk
    unfold slotAt
    by_cases hneg : k < 0
    · rw [if_pos hneg, if_pos hneg]
    · rw [if_neg hneg, if_neg hneg, allocSlot_get,
        if_neg (by omega : ¬(k.toNat = (allocSlot tm.slots (n, p)).1))]

/-- Releasing a live slot frees it and disturbs no other slot. -/
theorem releaseTextureResources_spec (tm : FTextureManager) (i : Int)
    (pr : String × Nat) (hs : slotAt tm.slots i = some pr) :
    slotAt (tm.ReleaseTextureResources i).slots i = none ∧
    ∀ k : Int, k ≠ i →
      slotAt (tm.ReleaseTextureResources i).slots k = slotAt tm.slots k := by
  obtain ⟨hpos, hget⟩ := slotAt_eq_some hs
  have hrange : i.toNat < tm.slots.length := (List.getElem?_eq_some.mp hget).1
  unfold FTextureManager.ReleaseTextureResources
  rw [hs]
  constructor
  · show slotAt (tm.slots.set i.toNat none) i = none
    rw [slotAt_set, if_pos ⟨hpos, rfl, hrange⟩]
  · intro k hk
    show slotAt (tm.slots.set i.toNat none) k = slotAt tm.slots k
    rw [slotAt_set,
      if_neg (by omega : ¬(0 ≤ k ∧ k.toNat = i.toNat ∧ i.toNat < tm.slots.length))]

/-- Unfolding removeDelegate on a MultiContext handle. -/
theorem removeDelegate_multi (m : FImGuiModuleManager) (h : FImGuiDelegateHandle)
    (hc : h.Category = .MultiContext) :
    m.removeDelegate h = { m with contextManager := { m.contextManager with
      multiContextDraw := removeKey h.Handle m.contextManager.multiContextDraw } } := by
  unfold FImGuiModuleManager.removeDelegate
  rw [hc]

/-- Unfolding removeDelegate on a Default handle whose context is gone: the
removal is a silent no-op. -/
theorem removeDelegate_default_none (m : FImGuiModuleManager) (h : FImGuiDelegateHandle)
    (hc : h.Category = .Default)
    (hp : m.contextManager.GetContextProxy h.Index = none) :
    m.removeDelegate h = m := by
  unfold FImGuiModuleManager.removeDelegate
  rw [hc]
  simp only [hp]

/-- Unfolding removeDelegate on a Default handle whose context is live. -/
theorem removeDelegate_default_some (m : FImGuiModuleManager) (h : FImGuiDelegateHandle)
    (hc : h.Category = .Default) (p : FImGuiContextProxy)
    (hp : m.contextManager.GetContextProxy h.Index = some p) :
    m.removeDelegate h = { m with contextManager := { m.contextManager with
      contexts := m.contextManager.contexts.set h.Index.toNat
        (some ⟨removeKey h.Handle p.onDraw⟩) } } := by
  unfold FImGuiModuleManager.removeDelegate
  rw [hc]
  simp only [hp]

/-- Removing the same delegate handle a second time changes nothing (manager
level). -/
theorem removeDelegate_idem (m : FImGuiModuleManager) (h : FImGuiDelegateHandle) :
    (m.removeDelegate h).removeDelegate h = m.removeDelegate h := by
  cases hc : h.Category with
  | MultiContext =>
      rw [removeDelegate_multi m h hc, removeDelegate_multi _ h hc]
      simp [removeKey_idem]
  | Default =>
      cases hp : m.contextManager.GetContextProxy h.Index with
      | none =>
          rw [removeDelegate_default_none m h hc hp,
            removeDelegate_default_none m h hc hp]
      | some p =>
          obtain ⟨hpos, hget⟩ := slotAt_eq_some hp
          have hrange : h.Index.toNat < m.contextManager.contexts.length :=
            (List.getElem?_eq_some.mp hget).1
          rw [removeDelegate_default_some m h hc p hp]
          have hp2 : FImGuiContextManager.GetContextProxy
              { m.contextManager with
                contexts := m.contextManager.contexts.set h.Index.toNat
                  (some ⟨removeKey h.Handle p.onDraw⟩) } h.Index
              = some ⟨removeKey h.Handle p.onDraw⟩ := by
            show slotAt (m.contextManager.contexts.set h.Index.toNat
              (some ⟨removeKey h.Handle p.onDraw⟩)) h.Index = _
            rw [slotAt_set, if_pos ⟨hpos, rfl, hrange⟩]
          rw [removeDelegate_default_some _ h hc _ hp2]
          simp [List.set_set, removeKey_idem]

/-- Releasing the same texture index a second time changes nothing (registry
level): by then the slot is free and release is a no-op. -/
theorem releaseTextureResources_idem (tm : FTextureManager) (i : Int) :
    (tm.ReleaseTextureResources i).ReleaseTextureResources i
      = tm.ReleaseTextureResources i := by
  cases hs : slotAt tm.slots i with
  | none =>
      unfold FTextureManager.ReleaseTextureResources
      simp only [hs]
  | some pr =>
      have h1 := releaseTextureResources_spec tm i pr hs
      unfold FTextureManager.ReleaseTextureResources
      rw [hs]
      have h2 : slotAt (tm.slots.set i.toNat none) i = none := by
        have := h1.1
        unfold FTextureManager.ReleaseTextureResources at this
        rw [hs] at this
        exact this
      simp only [h2]

/-- C5: removal and unregistration are idempotent — removing a delegate handle
twice leaves the state of the first removal, and releasing a texture handle
twice leaves the state of the first release; neither second call signals an
error (both are total functions returning the state unchanged). -/
theorem removal_and_release_idempotent :
    (∀ (st : ModuleState) (h : FImGuiDelegateHandle),
      RemoveImGuiDelegate (RemoveImGuiDelegate st h) h = RemoveImGuiDelegate st h) ∧
    (∀ (m : FImGuiModuleManager) (h : FImGuiTextureHandle),
      (m.ReleaseTexture h).ReleaseTexture h = m.ReleaseTexture h) := by
  constructor
  · intro st h
    cases hm : st.imGuiModuleManager with
    | none => simp [RemoveImGuiDelegate, hm]
    | some m => simp [RemoveImGuiDelegate, hm, removeDelegate_idem]
  · intro m h
    by_cases hv : h.IsValid
    · simp [FImGuiModuleManager.ReleaseTexture, hv, releaseTextureResources_idem]
    · simp [FImGuiModuleManager.ReleaseTexture, hv]

/-- A name-lookup hit points at a live slot storing that name. -/
theorem firstNamed_some : ∀ (l : List (Option (String × Nat))) (n : String) (i : Nat),
    firstNamed l n = some i → ∃ p, l[i]? = some (some (n, p))
  | [], n, i, h => by simp [firstNamed] at h
  | none :: rest, n, i, h => by
      simp only [firstNamed] at h
      cases hf : firstNamed rest n with
      | none => rw [hf] at h; simp at h
      | some j =>
          rw [hf] at h
          simp only [Option.map_some'] at h
          injection h with h
          subst h
          obtain ⟨p, hp⟩ := firstNamed_some rest n j hf
          exact ⟨p, by simpa using hp⟩
  | some (m, q) :: rest, n, i, h => by
      simp only [firstNamed] at h
      by_cases hm : m = n
      · rw [if_pos hm] at h
        injection h with h
        subst h
        subst hm
        exact ⟨q, by simp⟩
      · rw [if_neg hm] at h
        cases hf : firstNamed rest n with
        | none => rw [hf] at h; simp at h
        | some j =>
            rw [hf] at h
            simp only [Option.map_some'] at h
            injection h with h
            subst h
            obtain ⟨p, hp⟩ := firstNamed_some rest n j hf
            exact ⟨p, by simpa using hp⟩

/-- A name-lookup miss means no slot (at any index) stores the name. -/
theorem firstNamed_none : ∀ (l : List (Option (String × Nat))) (n : String),
    firstNamed l n = none → ∀ (j : Nat) (p : Nat), l[j]? ≠ some (some (n, p))
  | [], n, h, j, p => by simp
  | none :: rest, n, h, j, p => by
      simp only [firstNamed] at h
      have hf : firstNamed rest n = none := by
        cases hff : firstNamed rest n with
        | none => rfl
        | some k => rw [hff] at h; simp at h
      cases j with
      | zero => simp
      | succ j2 => simpa using firstNamed_none rest n hf j2 p
  | some (m, q) :: rest, n, h, j, p => by
      simp only [firstNamed] at h
      by_cases hm : m = n
      · rw [if_pos hm] at h
        simp at h
      · rw [if_neg hm] at h
        have hf : firstNamed rest n = none := by
          cases hff : firstNamed rest n with
          | none => rfl
          | some k => rw [hff] at h; simp at h
        cases j with
        | zero =>
            intro hc
            simp only [List.getElem?_cons_zero, Option.some.injEq] at hc
            exact hm (congrArg Prod.fst (by injection hc))
        | succ j2 => simpa using firstNamed_none rest n hf j2 p

/-- C7: FindTextureHandle returns the invalid default handle exactly when no
live slot stores the requested name; a non-default result carries exactly the
requested name together with the index of a live slot storing that name. -/
theorem findTextureHandle_spec (m : FImGuiModuleManager) (n : String) :
    (m.FindTextureHandle n = defaultTextureHandle ↔
      ∀ i : Int, m.textureManager.GetTextureName i ≠ some n) ∧
    (m.FindTextureHandle n ≠ defaultTextureHandle →
      (m.FindTextureHandle n).Name = n ∧
        m.textureManager.GetTextureName (m.FindTextureHandle n).TextureId = some n) := by
  unfold FImGuiModuleManager.FindTextureHandle FTextureManager.FindTextureIndex
  cases hf : firstNamed m.textureManager.slots n with
  | none =>
      simp only [hf, bne_self_eq_false, Bool.false_eq_true, if_false]
      constructor
      · constructor
        · intro _ i hcontra
          obtain ⟨p, hp⟩ := getTextureName_eq_some.mp hcontra
          obtain ⟨hpos, hget⟩ := slotAt_eq_some hp
          exact firstNamed_none _ n hf i.toNat p hget
        · intro _
          trivial
      · intro hne
        exact absurd (by trivial) hne
  | some idx =>
      have hne : (((idx : Int)) != INDEX_NONE) = true := by
        simp only [bne_iff_ne, ne_eq, INDEX_NONE]
        omega
      simp only [hf, hne, if_true]
      obtain ⟨p, hp⟩ := firstNamed_some _ n idx hf
      have hname : m.textureManager.GetTextureName (idx : Int) = some n := by
        apply getTextureName_eq_some.mpr
        refine ⟨p, ?_⟩
        unfold slotAt
        rw [if_neg (by omega : ¬((idx : Int) < 0)),
          (by omega : ((idx : Int)).toNat = idx), hp]
        rfl
      constructor
      · constructor
        · intro heq
          exfalso
          have hid : ((idx : Int)) = INDEX_NONE :=
            congrArg FImGuiTextureHandle.TextureId heq
          simp only [INDEX_NONE] at hid
          omega
        · intro hall
          exact absurd hname (hall _)
      · intro _
        exact ⟨by trivial, hname⟩

/-- Witness for C7 on a one-slot registry holding name a. -/
theorem findTextureHandle_spec_witness :
    ((FImGuiModuleManager.mk ⟨[], []⟩ ⟨[some ("a", 3)]⟩ 0).FindTextureHandle "a").Name
        = "a" ∧
      (FImGuiModuleManager.mk ⟨[], []⟩ ⟨[some ("a", 3)]⟩ 0).textureManager.GetTextureName
        ((FImGuiModuleManager.mk ⟨[], []⟩ ⟨[some ("a", 3)]⟩ 0).FindTextureHandle "a").TextureId
        = some "a" :=
  (findTextureHandle_spec (FImGuiModuleManager.mk ⟨[], []⟩ ⟨[some ("a", 3)]⟩ 0) "a").2
    (by decide)

/-- C2: slot-reuse aliasing is impossible. Register a texture under name A,
release its slot, register another under name B (which may reuse the index):
identity-checked resolution of the old index under A yields NotFound and the
stale handle fails HasValidEntry, while resolution of the new registration's
index under B yields the new payload — a stale handle never resolves to the
slot's new occupant. -/
theorem stale_handle_never_aliases (tm : FTextureManager) (A B : String)
    (p1 p2 : Nat) (i j : Int) (tm1 tm3 : FTextureManager)
    (cm : FImGuiContextManager) (key : Nat) (ie sd : Int)
    (hAB : A ≠ B)
    (h1 : tm.CreateTextureResources A p1 true = (i, tm1))
    (h3 : (tm1.ReleaseTextureResources i).CreateTextureResources B p2 true = (j, tm3)) :
    tm3.Resolve i A = none ∧ tm3.Resolve j B = some p2 ∧
    ModuleState.HasValidEntry ⟨some ⟨cm, tm3, key⟩, ie, sd⟩ ⟨A, i⟩ = false := by
  unfold FTextureManager.CreateTextureResources at h1 h3
  rw [if_pos rfl] at h1 h3
  have hspec1 := allocTexture_spec tm A p1
  rw [h1] at hspec1
  obtain ⟨hipos, hs1, hother1⟩ := hspec1
  have hspec2 := releaseTextureResources_spec tm1 i (A, p1) hs1
  obtain ⟨hs2, hother2⟩ := hspec2
  have hspec3 := allocTexture_spec (tm1.ReleaseTextureResources i) B p2
  rw [h3] at hspec3
  obtain ⟨hjpos, hs3, hother3⟩ := hspec3
  have hstale : slotAt tm3.slots i = none ∨ slotAt tm3.slots i = some (B, p2) := by
    by_cases hij : i = j
    · subst hij
      right
      exact hs3
    · left
      rw [hother3 i hij]
      exact hs2
  refine ⟨?_, ?_, ?_⟩
  · unfold FTextureManager.Resolve
    rcases hstale with hst | hst
    · simp only [hst]
    · simp only [hst]
      rw [if_neg (fun hba => hAB hba.symm)]
  · unfold FTextureManager.Resolve
    simp only [hs3]
    simp
  · unfold ModuleState.HasValidEntry
    have hname : FTextureManager.GetTextureName tm3 i ≠ some A := by
      unfold FTextureManager.GetTextureName
      rcases hstale with hst | hst
      · simp [hst]
      · simp only [hst, Option.map_some']
        intro hc
        injection hc with hc
        exact hAB hc.symm
    simp only
    rw [(by simpa using hname : (FTextureManager.GetTextureName tm3 i == some A) = false)]
    simp

/-- Witness for C2: register A at slot 0 of an empty registry, release it,
register B (which reuses slot 0); the stale lookups fail and the new one
succeeds. -/
theorem stale_handle_never_aliases_witness :
    FTextureManager.Resolve ⟨[some ("B", 1)]⟩ 0 "A" = none ∧
      FTextureManager.Resolve ⟨[some ("B", 1)]⟩ 0 "B" = some 1 ∧
      ModuleState.HasValidEntry ⟨some ⟨⟨[], []⟩, ⟨[some ("B", 1)]⟩, 4⟩, 0, 0⟩
        ⟨"A", 0⟩ = false :=
  stale_handle_never_aliases ⟨[]⟩ "A" "B" 0 1 0 0 ⟨[some ("A", 0)]⟩ ⟨[some ("B", 1)]⟩
    ⟨[], []⟩ 4 0 0 (by decide) (by decide) (by decide)

/-- The draw-delegate entries of the context at an index (empty when the
context is absent). -/
def proxyEntries (m : FImGuiModuleManager) (i : Int) : List (Nat × Nat) :=
  match m.contextManager.GetContextProxy i with
  | some p => p.onDraw
  | none => []

/-- Membership in proxyEntries names the live proxy it came from. -/
theorem mem_proxyEntries {m : FImGuiModuleManager} {i : Int} {e : Nat × Nat}
    (he : e ∈ proxyEntries m i) :
    ∃ p, m.contextManager.GetContextProxy i = some p ∧ e ∈ p.onDraw := by
  unfold proxyEntries at he
  cases hp : m.contextManager.GetContextProxy i with
  | none => rw [hp] at he; simp at he
  | some p => rw [hp] at he; exact ⟨p, rfl, he⟩

/-- An entry of a live proxy is an entry of proxyEntries. -/
theorem mem_proxyEntries_of {m : FImGuiModuleManager} {i : Int}
    {p : FImGuiContextProxy} {e : Nat × Nat}
    (hp : m.contextManager.GetContextProxy i = some p) (he : e ∈ p.onDraw) :
    e ∈ proxyEntries m i := by
  unfold proxyEntries
  rw [hp]
  exact he

/-- Writing back the element a list already holds is the identity. -/
theorem set_of_getElem_eq {α : Type} : ∀ (l : List α) (n : Nat) (a : α),
    l[n]? = some a → l.set n a = l
  | [], n, a, h => by simp at h
  | x :: xs, 0, a, h => by
      simp only [List.getElem?_cons_zero, Option.some.injEq] at h
      subst h
      rfl
  | x :: xs, n+1, a, h => by
      simp only [List.getElem?_cons_succ] at h
      simp [set_of_getElem_eq xs n a h]

/-- After an allocation, a lookup sees either the new value or whatever it saw
before. -/
theorem slotAt_alloc {α : Type} (l : List (Option α)) (v : α) (i : Int) :
    slotAt (allocSlot l v).2 i = some v ∨ slotAt (allocSlot l v).2 i = slotAt l i := by
  unfold slotAt
  by_cases hneg : i < 0
  · right
    rw [if_pos hneg, if_pos hneg]
  · rw [if_neg hneg, if_neg hneg, allocSlot_get]
    by_cases hj : i.toNat = (allocSlot l v).1
    · left
      rw [if_pos hj]
      rfl
    · right
      rw [if_neg hj]

/-- Inversion of a successful AddDefault: the context was live, the handle is
Default-category with the issued key and index, and the new manager appends the
entry and bumps the key counter. -/
theorem addDefault_ok {m : FImGuiModuleManager} {i : Int} {cb : Nat}
    {h : FImGuiDelegateHandle} {m1 : FImGuiModuleManager}
    (hadd : m.AddDefault i cb = .ok (h, m1)) :
    ∃ p, m.contextManager.GetContextProxy i = some p ∧
      h = ⟨m.nextDelegateKey, .Default, i⟩ ∧
      m1 = { m with
        contextManager := { m.contextManager with
          contexts := m.contextManager.contexts.set i.toNat
            (some ⟨p.onDraw ++ [(m.nextDelegateKey, cb)]⟩) },
        nextDelegateKey := m.nextDelegateKey + 1 } := by
  unfold FImGuiModuleManager.AddDefault at hadd
  cases hp : m.contextManager.GetContextProxy i with
  | none =>
      rw [hp] at hadd
      exact absurd hadd (by simp)
  | some p =>
      rw [hp] at hadd
      simp only [Except.ok.injEq, Prod.mk.injEq] at hadd
      exact ⟨p, rfl, hadd.1.symm, hadd.2.symm⟩

/-- removeDelegate never changes the key counter. -/
theorem removeDelegate_nextKey (m : FImGuiModuleManager) (h : FImGuiDelegateHandle) :
    (m.removeDelegate h).nextDelegateKey = m.nextDelegateKey := by
  cases hc : h.Category with
  | MultiContext => rw [removeDelegate_multi m h hc]
  | Default =>
      cases hp : m.contextManager.GetContextProxy h.Index with
      | none => rw [removeDelegate_default_none m h hc hp]
      | some p => rw [removeDelegate_default_some m h hc p hp]

/-- Removing a Default handle whose key is absent from its context's entries
changes nothing. -/
theorem removeDelegate_of_fresh {m : FImGuiModuleManager} {h : FImGuiDelegateHandle}
    (hc : h.Category = .Default)
    (hfresh : ∀ e ∈ proxyEntries m h.Index, e.1 ≠ h.Handle) :
    m.removeDelegate h = m := by
  cases hp : m.contextManager.GetContextProxy h.Index with
  | none => exact removeDelegate_default_none m h hc hp
  | some p =>
      rw [removeDelegate_default_some m h hc p hp]
      rw [removeKey_of_not_mem _ _ (fun e he => hfresh e (mem_proxyEntries_of hp he))]
      obtain ⟨hpos, hget⟩ := slotAt_eq_some hp
      have hpe : (⟨p.onDraw⟩ : FImGuiContextProxy) = p := rfl
      rw [hpe, set_of_getElem_eq _ _ _ hget]

/-- C6: Remove deletes exactly the entry its handle was issued for and no
other, on the owning sequence. Removing the handle a fresh AddDefault returned
restores the whole registry (that context's sequence loses only the new entry;
every other context and the global sequence are untouched); removing the
handle a fresh AddMultiContext returned likewise restores the whole registry
(the global sequence loses only the new entry and no context is touched); and
any MultiContext-category handle's removal never touches a context's sequence,
the texture registry, or the key counter — it only ever edits the global
multi-context sequence. -/
theorem remove_removes_exactly_its_entry :
    (∀ (m : FImGuiModuleManager) (i : Int) (cb : Nat) (h : FImGuiDelegateHandle)
        (m1 : FImGuiModuleManager),
      m.AddDefault i cb = .ok (h, m1) →
      (∀ e ∈ proxyEntries m i, e.1 < m.nextDelegateKey) →
      (m1.removeDelegate h).contextManager = m.contextManager) ∧
    (∀ (m : FImGuiModuleManager) (cb : Nat),
      (∀ e ∈ m.contextManager.multiContextDraw, e.1 < m.nextDelegateKey) →
      ((m.AddMultiContext cb).2.removeDelegate (m.AddMultiContext cb).1).contextManager
        = m.contextManager) ∧
    (∀ (m : FImGuiModuleManager) (h : FImGuiDelegateHandle),
      h.Category = .MultiContext →
      (m.removeDelegate h).contextManager.contexts = m.contextManager.contexts ∧
      (m.removeDelegate h).textureManager = m.textureManager ∧
      (m.removeDelegate h).nextDelegateKey = m.nextDelegateKey) := by
  refine ⟨?_, ?_, ?_⟩
  · intro m i cb h m1 hadd hkeys
    obtain ⟨p, hp, hh, hm1⟩ := addDefault_ok hadd
    subst hh
    subst hm1
    obtain ⟨hpos, hget⟩ := slotAt_eq_some hp
    have hrange : i.toNat < m.contextManager.contexts.length :=
      (List.getElem?_eq_some.mp hget).1
    have hp2 : FImGuiContextManager.GetContextProxy
        { m.contextManager with
          contexts := m.contextManager.contexts.set i.toNat
            (some ⟨p.onDraw ++ [(m.nextDelegateKey, cb)]⟩) } i
        = some ⟨p.onDraw ++ [(m.nextDelegateKey, cb)]⟩ := by
      show slotAt _ i = _
      rw [slotAt_set, if_pos ⟨hpos, rfl, hrange⟩]
    rw [removeDelegate_default_some _ _ rfl _ hp2]
    dsimp only
    rw [removeKey_append, removeKey_single_self, List.append_nil,
      removeKey_of_not_mem _ _
        (fun e he => Nat.ne_of_lt (hkeys e (mem_proxyEntries_of hp he)))]
    have hpe : (⟨p.onDraw⟩ : FImGuiContextProxy) = p := rfl
    rw [hpe, List.set_set, set_of_getElem_eq _ _ _ hget]
  · intro m cb hkeys
    rw [removeDelegate_multi _ _ rfl]
    show FImGuiContextManager.mk m.contextManager.contexts
        (removeKey m.nextDelegateKey
          (m.contextManager.multiContextDraw ++ [(m.nextDelegateKey, cb)]))
      = m.contextManager
    rw [removeKey_append, removeKey_single_self, List.append_nil,
      removeKey_of_not_mem _ _ (fun e he => Nat.ne_of_lt (hkeys e he))]
  · intro m h hc
    rw [removeDelegate_multi m h hc]
    exact ⟨rfl, rfl, rfl⟩

/-- Witness for C6: removing the handle issued by a concrete AddDefault
restores the context manager, a concrete AddMultiContext round-trip restores
it too (the global sequence keeps its other entry), and a concrete
MultiContext removal leaves the context sequences untouched. -/
theorem remove_removes_exactly_its_entry_witness :
    ((FImGuiModuleManager.mk ⟨[some ⟨[(0, 9), (1, 7)]⟩], []⟩ ⟨[]⟩ 2).removeDelegate
        ⟨1, .Default, 0⟩).contextManager
      = (FImGuiModuleManager.mk ⟨[some ⟨[(0, 9)]⟩], []⟩ ⟨[]⟩ 1).contextManager ∧
    (((FImGuiModuleManager.mk ⟨[], [(0, 9)]⟩ ⟨[]⟩ 1).AddMultiContext 5).2.removeDelegate
        ((FImGuiModuleManager.mk ⟨[], [(0, 9)]⟩ ⟨[]⟩ 1).AddMultiContext 5).1).contextManager
      = (FImGuiModuleManager.mk ⟨[], [(0, 9)]⟩ ⟨[]⟩ 1).contextManager ∧
    ((FImGuiModuleManager.mk ⟨[], [(2, 5)]⟩ ⟨[]⟩ 3).removeDelegate
        ⟨2, .MultiContext, 0⟩).contextManager.contexts
      = (FImGuiModuleManager.mk ⟨[], [(2, 5)]⟩ ⟨[]⟩ 3).contextManager.contexts :=
  ⟨remove_removes_exactly_its_entry.1
      (FImGuiModuleManager.mk ⟨[some ⟨[(0, 9)]⟩], []⟩ ⟨[]⟩ 1) 0 7 ⟨1, .Default, 0⟩
      (FImGuiModuleManager.mk ⟨[some ⟨[(0, 9), (1, 7)]⟩], []⟩ ⟨[]⟩ 2)
      rfl (by decide),
   remove_removes_exactly_its_entry.2.1
      (FImGuiModuleManager.mk ⟨[], [(0, 9)]⟩ ⟨[]⟩ 1) 5 (by decide),
   (remove_removes_exactly_its_entry.2.2
      (FImGuiModuleManager.mk ⟨[], [(2, 5)]⟩ ⟨[]⟩ 3) ⟨2, .MultiContext, 0⟩ rfl).1⟩

/-- One registry operation, used to quantify over what can happen to the
delegate registry between a handle being issued and its removal: contexts may
be created (allocating a slot, possibly reusing a freed index) and released,
delegates added to contexts or to the global sequence, and handles removed. -/
inductive RegistryOp
  | createContext
  | releaseContext (i : Nat)
  | addDefaultOp (i : Int) (cb : Nat)
  | addMultiOp (cb : Nat)
  | removeOp (h : FImGuiDelegateHandle)
deriving DecidableEq, Repr

/-- Modelled from the spec: context creation allocates a context slot through
the Slot Registry (reusing a free index or appending) with an empty draw
list. -/
def FImGuiModuleManager.createContext (m : FImGuiModuleManager) : FImGuiModuleManager :=
  { m with contextManager := { m.contextManager with
      contexts := (allocSlot m.contextManager.contexts ⟨[]⟩).2 } }

/-- Modelled from the spec: releasing a world context frees its slot,
discarding its whole callback list. -/
def FImGuiModuleManager.releaseContext (m : FImGuiModuleManager) (i : Nat) :
    FImGuiModuleManager :=
  { m with contextManager := { m.contextManager with
      contexts := m.contextManager.contexts.set i none } }

/-- Apply one registry operation (a failed AddDefault leaves the manager
unchanged). -/
def applyOp (m : FImGuiModuleManager) : RegistryOp → FImGuiModuleManager
  | .createContext => m.createContext
  | .releaseContext i => m.releaseContext i
  | .addDefaultOp i cb =>
      match m.AddDefault i cb with
      | .ok r => r.2
      | .error _ => m
  | .addMultiOp cb => (m.AddMultiContext cb).2
  | .removeOp h => m.removeDelegate h

/-- Run a sequence of registry operations. -/
def runOps (m : FImGuiModuleManager) : List RegistryOp → FImGuiModuleManager
  | [] => m
  | op :: rest => runOps (applyOp m op) rest

/-- Freshness of a delegate key with respect to the context at an index: the
key sits below the manager's counter and no entry of that context carries it. -/
def KeyFresh (k : Nat) (i : Int) (m : FImGuiModuleManager) : Prop :=
  k < m.nextDelegateKey ∧ ∀ e ∈ proxyEntries m i, e.1 ≠ k

/-- Lookup beyond the end of the slot sequence finds nothing. -/
theorem slotAt_len_le {α : Type} (l : List (Option α)) (i : Int)
    (h : l.length ≤ i.toNat) : slotAt l i = none := by
  unfold slotAt
  by_cases hneg : i < 0
  · rw [if_pos hneg]
  · rw [if_neg hneg, List.getElem?_eq_none_iff.mpr h]
    rfl

/-- Every registry operation preserves key freshness: the counter only grows,
entries added after the key was retired carry strictly larger keys, context
creation starts empty, and removals only shrink entry lists. -/
theorem keyFresh_applyOp {k : Nat} {i : Int} {m : FImGuiModuleManager}
    (hk : KeyFresh k i m) (op : RegistryOp) : KeyFresh k i (applyOp m op) := by
  obtain ⟨hlt, hmem⟩ := hk
  cases op with
  | createContext =>
      refine ⟨hlt, ?_⟩
      intro e he
      obtain ⟨p, hp, hep⟩ := mem_proxyEntries he
      have hp2 : slotAt (allocSlot m.contextManager.contexts
          (⟨[]⟩ : FImGuiContextProxy)).2 i = some p := hp
      rcases slotAt_alloc m.contextManager.contexts ⟨[]⟩ i with hca | hca
      · rw [hca] at hp2
        injection hp2 with hp2
        rw [← hp2] at hep
        simp at hep
      · rw [hca] at hp2
        exact hmem e (mem_proxyEntries_of hp2 hep)
  | releaseContext j =>
      refine ⟨hlt, ?_⟩
      intro e he
      obtain ⟨p, hp, hep⟩ := mem_proxyEntries he
      have hp2 : slotAt (m.contextManager.contexts.set j none) i = some p := hp
      rw [slotAt_set] at hp2
      split_ifs at hp2 with hcond
      exact hmem e (mem_proxyEntries_of hp2 hep)
  | addDefaultOp j cb =>
      show KeyFresh k i (match m.AddDefault j cb with
        | .ok r => r.2
        | .error _ => m)
      cases hadd : m.AddDefault j cb with
      | error e0 => exact ⟨hlt, hmem⟩
      | ok r =>
          obtain ⟨p, hp, hh, hm1⟩ :=
            addDefault_ok (show m.AddDefault j cb = .ok (r.1, r.2) from hadd)
          show KeyFresh k i r.2
          rw [hm1]
          obtain ⟨hjpos, hjget⟩ := slotAt_eq_some hp
          constructor
          · show k < m.nextDelegateKey + 1
            omega
          · intro e he
            obtain ⟨q, hq, heq⟩ := mem_proxyEntries he
            have hq2 : slotAt (m.contextManager.contexts.set j.toNat
                (some ⟨p.onDraw ++ [(m.nextDelegateKey, cb)]⟩)) i = some q := hq
            rw [slotAt_set] at hq2
            split_ifs at hq2 with hcond
            · injection hq2 with hq2
              obtain rfl : i = j := by omega
              subst hq2
              have heq2 : e ∈ p.onDraw ++ [(m.nextDelegateKey, cb)] := heq
              rcases List.mem_append.mp heq2 with hold | hnew
              · exact hmem e (mem_proxyEntries_of hp hold)
              · have he2 : e = (m.nextDelegateKey, cb) := by simpa using hnew
                subst he2
                show m.nextDelegateKey ≠ k
                omega
            · exact hmem e (mem_proxyEntries_of hq2 heq)
  | addMultiOp cb =>
      refine ⟨?_, ?_⟩
      · show k < m.nextDelegateKey + 1
        omega
      · intro e he
        exact hmem e he
  | removeOp h2 =>
      cases hc : h2.Category with
      | MultiContext =>
          rw [show applyOp m (.removeOp h2) = m.removeDelegate h2 from rfl,
            removeDelegate_multi m h2 hc]
          exact ⟨hlt, fun e he => hmem e he⟩
      | Default =>
          cases hp : m.contextManager.GetContextProxy h2.Index with
          | none =>
              rw [show applyOp m (.removeOp h2) = m.removeDelegate h2 from rfl,
                removeDelegate_default_none m h2 hc hp]
              exact ⟨hlt, hmem⟩
          | some p =>
              rw [show applyOp m (.removeOp h2) = m.removeDelegate h2 from rfl,
                removeDelegate_default_some m h2 hc p hp]
              obtain ⟨hhpos, hhget⟩ := slotAt_eq_some hp
              refine ⟨hlt, ?_⟩
              intro e he
              obtain ⟨q, hq, heq⟩ := mem_proxyEntries he
              have hq2 : slotAt (m.contextManager.contexts.set h2.Index.toNat
                  (some ⟨removeKey h2.Handle p.onDraw⟩)) i = some q := hq
              rw [slotAt_set] at hq2
              split_ifs at hq2 with hcond
              · injection hq2 with hq2
                obtain rfl : i = h2.Index := by omega
                subst hq2
                have heq2 : e ∈ removeKey h2.Handle p.onDraw := heq
                exact hmem e (mem_proxyEntries_of hp (mem_removeKey heq2))
              · exact hmem e (mem_proxyEntries_of hq2 heq)

/-- The key counter never decreases under a registry operation. -/
theorem nextKey_mono_applyOp (m : FImGuiModuleManager) (op : RegistryOp) :
    m.nextDelegateKey ≤ (applyOp m op).nextDelegateKey := by
  cases op with
  | createContext => exact le_refl _
  | releaseContext i => exact le_refl _
  | addDefaultOp i cb =>
      show m.nextDelegateKey ≤ (match m.AddDefault i cb with
        | .ok r => r.2
        | .error _ => m).nextDelegateKey
      cases hadd : m.AddDefault i cb with
      | error e0 => exact le_refl _
      | ok r =>
          obtain ⟨p, hp, hh, hm1⟩ :=
            addDefault_ok (show m.AddDefault i cb = .ok (r.1, r.2) from hadd)
          show m.nextDelegateKey ≤ r.2.nextDelegateKey
          rw [hm1]
          exact Nat.le_succ _
  | addMultiOp cb => exact Nat.le_succ _
  | removeOp h => exact le_of_eq (removeDelegate_nextKey m h).symm

/-- The key counter never decreases along a run. -/
theorem nextKey_mono_runOps (m : FImGuiModuleManager) (ops : List RegistryOp) :
    m.nextDelegateKey ≤ (runOps m ops).nextDelegateKey := by
  induction ops generalizing m with
  | nil => exact le_refl _
  | cons op rest ih =>
      exact le_trans (nextKey_mono_applyOp m op) (ih (applyOp m op))

/-- Key freshness is preserved along any run of registry operations. -/
theorem keyFresh_runOps {k : Nat} {i : Int} {m : FImGuiModuleManager}
    (hk : KeyFresh k i m) (ops : List RegistryOp) : KeyFresh k i (runOps m ops) := by
  induction ops generalizing m with
  | nil => exact hk
  | cons op rest ih => exact ih (keyFresh_applyOp hk op)

/-- releaseContext keeps the key counter. -/
theorem releaseContext_nextKey (m : FImGuiModuleManager) (i : Nat) :
    (m.releaseContext i).nextDelegateKey = m.nextDelegateKey := rfl

/-- C4: a Default-category handle whose context has since been released is
permanently dead for Remove. Issue a handle with AddDefault, let anything
happen to the registry (ops0), release the handle's context, let anything more
happen (ops, including recreating a context at the same index and filling it):
removing the stale handle then changes nothing at all — no error, no mutation,
in particular no entry of any reused context's sequence is removed. -/
theorem remove_after_context_release_noop (m0 : FImGuiModuleManager) (i : Int)
    (cb : Nat) (h : FImGuiDelegateHandle) (m1 : FImGuiModuleManager)
    (ops0 ops : List RegistryOp)
    (hadd : m0.AddDefault i cb = .ok (h, m1)) :
    (runOps ((runOps m1 ops0).releaseContext i.toNat) ops).removeDelegate h
      = runOps ((runOps m1 ops0).releaseContext i.toNat) ops := by
  obtain ⟨p, hp, hh, hm1⟩ := addDefault_ok hadd
  subst hh
  have hkey1 : m1.nextDelegateKey = m0.nextDelegateKey + 1 := by rw [hm1]
  have hmono := nextKey_mono_runOps m1 ops0
  have hbase : KeyFresh m0.nextDelegateKey i
      ((runOps m1 ops0).releaseContext i.toNat) := by
    constructor
    · rw [releaseContext_nextKey]
      omega
    · intro e he
      obtain ⟨q, hq, heq⟩ := mem_proxyEntries he
      exfalso
      have hq2 : slotAt ((runOps m1 ops0).contextManager.contexts.set i.toNat none) i
          = some q := hq
      rw [slotAt_set] at hq2
      split_ifs at hq2 with hcond
      obtain ⟨hpos0, -⟩ := slotAt_eq_some hp
      have hnone : slotAt (runOps m1 ops0).contextManager.contexts i = none :=
        slotAt_len_le _ _ (by omega)
      rw [hnone] at hq2
      exact absurd hq2 (by simp)
  exact removeDelegate_of_fresh rfl (keyFresh_runOps hbase ops).2

/-- Witness for C4 at a concrete run: a one-context registry issues a handle,
the context is released, a new context is created at the reused index 0 and a
delegate added to it; removing the stale handle changes nothing. -/
theorem remove_after_context_release_noop_witness :
    (runOps ((runOps (FImGuiModuleManager.mk ⟨[some ⟨[(0, 7)]⟩], []⟩ ⟨[]⟩ 1)
          [.addMultiOp 3]).releaseContext (Int.toNat 0))
        [.createContext, .addDefaultOp 0 5]).removeDelegate ⟨0, .Default, 0⟩
      = runOps ((runOps (FImGuiModuleManager.mk ⟨[some ⟨[(0, 7)]⟩], []⟩ ⟨[]⟩ 1)
          [.addMultiOp 3]).releaseContext (Int.toNat 0))
        [.createContext, .addDefaultOp 0 5] :=
  remove_after_context_release_noop
    (FImGuiModuleManager.mk ⟨[some ⟨[]⟩], []⟩ ⟨[]⟩ 0) 0 7 ⟨0, .Default, 0⟩
    (FImGuiModuleManager.mk ⟨[some ⟨[(0, 7)]⟩], []⟩ ⟨[]⟩ 1)
    [.addMultiOp 3] [.createContext, .addDefaultOp 0 5] rfl
